import Mathlib

/-!
The header `parse_number.h` of fast_float.

A shallow embedding of `src/fast_float/include/fast_float/parse_number.h`
(`parse_infnan` and `from_chars`) and the properties proved about it.

Conventions of the embedding.

* Memory is a total map `Nat → Char` from addresses to characters, and a
  `const char *` is an address.  The span `[first, last)` handed to a function is
  the pair of addresses; memory outside the span exists (the span may be a slice of
  a larger buffer) and the embedding does not stop the code from reading it.
* A pointer field that the code never assigns is `none`.
* The output slot `T &value` is passed in and returned.
* The header includes `ascii_number.h`, `decimal_to_binary.h` and `thompson_tao.h`,
  none of which is available.  `parse_number_string`, `compute_float` and
  `parse_long_mantissa` are therefore parameters (`collaborators`); `is_space` and
  `fastfloat_strncasecmp` are modelled from the specification.
-/

namespace fastfloat

/-! ## Data model -/

/-- The two values of `std::errc` the header uses: `std::errc()` (success) and
`std::errc::invalid_argument`. -/
inductive errc where
  | ok
  | invalid_argument
  deriving DecidableEq, Repr

/-- The C++ `struct from_chars_result`, fields `const char *ptr; std::errc ec;`.
The struct is declared without initialiser (`from_chars_result answer;`), so a
`ptr` that no statement assigns is indeterminate: that is `none`. -/
structure from_chars_result where
  ptr : Option Nat
  ec : errc
  deriving DecidableEq, Repr

/-- The content of the output slot `T &value`.  `of_bits w` is the value whose
object representation is the word `w` (written by `memcpy`), `quiet_NaN` and
`infinity` are `std::numeric_limits<T>::quiet_NaN()` and
`std::numeric_limits<T>::infinity()`, and `neg v` is the C++ expression `-v`. -/
inductive float_value where
  | of_bits (word : Nat)
  | quiet_NaN
  | infinity
  | neg (v : float_value)
  deriving DecidableEq, Repr

/-- The C++ `struct adjusted_mantissa` (`uint64_t mantissa; int power2;`). -/
structure adjusted_mantissa where
  mantissa : Nat
  power2 : Int
  deriving DecidableEq, Repr

/-- The C++ `struct parsed_number_string`, the fields `from_chars` reads:
`int64_t exponent; uint64_t mantissa; const char *lastmatch; bool negative;
bool valid; bool too_many_digits;`. -/
structure parsed_number_string where
  exponent : Int
  mantissa : Nat
  lastmatch : Nat
  negative : Bool
  valid : Bool
  too_many_digits : Bool
  deriving DecidableEq, Repr

/-- The constants of `binary_format<T>` that `from_chars` uses
(`mantissa_explicit_bits()`, `sign_index()`), together with `sizeof(T)`. -/
structure binary_format where
  mantissa_explicit_bits : Nat
  sign_index : Nat
  sizeof_T : Nat
  deriving DecidableEq, Repr

/-- The functions `from_chars` calls whose definitions live in the absent headers:
the scanner `parse_number_string(first, last)`, the fast converter
`compute_float<binary_format<T>>(exponent, mantissa)` and the exact fallback
`parse_long_mantissa<binary_format<T>>(first, last)`. -/
structure collaborators where
  parse_number_string : (Nat → Char) → Nat → Nat → parsed_number_string
  compute_float : binary_format → Int → Nat → adjusted_mantissa
  parse_long_mantissa : binary_format → (Nat → Char) → Nat → Nat → adjusted_mantissa

/-! ## Helpers from the absent `ascii_number.h` -/

/-- Modelled from the spec: `is_space` is defined in `ascii_number.h`, which is
absent.  The spec lists the characters it accepts: "ASCII whitespace (space, tab,
newline, carriage return, form feed, vertical tab — no other whitespace)". -/
def is_space (c : Char) : Bool :=
  c = ' ' || c = '\t' || c = '\n' || c = '\r' || c = Char.ofNat 12 || c = Char.ofNat 11

/-- Modelled from the spec: `fastfloat_strncasecmp` is declared in
`ascii_number.h`, which is absent.  The spec calls the comparison
"case-insensitive" and the call sites test its result against `0`, so it is the C
library's `strncasecmp`: it compares at most `n` characters of the memory at `s1`
with the NUL-terminated literal `s2`, both lowered, and returns `0` when they
agree and the difference of the first pair that differs otherwise. -/
def fastfloat_strncasecmp (mem : Nat → Char) : Nat → List Char → Nat → Int
  | _, _, 0 => 0
  | s1, s2, n + 1 =>
    let c1 := (mem s1).toLower
    let c2 := (s2.headD (Char.ofNat 0)).toLower
    if c1 ≠ c2 then (c1.toNat : Int) - (c2.toNat : Int)
    else if c1 = Char.ofNat 0 then 0
    else fastfloat_strncasecmp mem (s1 + 1) s2.tail n

/-! ## `parse_infnan` (lines 26–72) -/

/-- The function `parse_infnan(first, last, value)`.  `last - first` is the
pointer difference; for `first ≤ last` the truncated subtraction of `Nat` is that
difference, and for `first > last` both make every length test false. -/
def parse_infnan (mem : Nat → Char) (first last : Nat) (value : float_value) :
    from_chars_result × float_value :=
  let answer : from_chars_result := { ptr := none, ec := errc.ok }
  if last - first ≥ 3 then
    if fastfloat_strncasecmp mem first ['n', 'a', 'n'] 3 = 0 then
      ({ answer with ptr := some (first + 3) }, float_value.quiet_NaN)
    else if fastfloat_strncasecmp mem first ['i', 'n', 'f'] 3 = 0 then
      let answer : from_chars_result :=
        if last - first ≥ 8 ∧
            fastfloat_strncasecmp mem first ['i', 'n', 'f', 'i', 'n', 'i', 't', 'y'] 8 = 0 then
          { answer with ptr := some (first + 8) }
        else
          { answer with ptr := some (first + 3) }
      (answer, float_value.infinity)
    else if last - first ≥ 4 then
      if fastfloat_strncasecmp mem first ['+', 'n', 'a', 'n'] 4 = 0 ∨
          fastfloat_strncasecmp mem first ['-', 'n', 'a', 'n'] 4 = 0 then
        let value := float_value.quiet_NaN
        let value := if mem first = '-' then float_value.neg value else value
        ({ answer with ptr := some (first + 4) }, value)
      else if fastfloat_strncasecmp mem first ['+', 'i', 'n', 'f'] 4 = 0 ∨
          fastfloat_strncasecmp mem first ['-', 'i', 'n', 'f'] 4 = 0 then
        let answer : from_chars_result :=
          if last - first ≥ 8 ∧
              fastfloat_strncasecmp mem (first + 1)
                ['i', 'n', 'f', 'i', 'n', 'i', 't', 'y'] 8 = 0 then
            { answer with ptr := some (first + 9) }
          else
            { answer with ptr := some (first + 4) }
        let value := float_value.infinity
        let value := if mem first = '-' then float_value.neg value else value
        (answer, value)
      else ({ answer with ec := errc.invalid_argument }, value)
    else ({ answer with ec := errc.invalid_argument }, value)
  else ({ answer with ec := errc.invalid_argument }, value)

/-! ## `from_chars` (lines 77–107) -/

/-- The conversion `uint64_t(x)` of a signed integer: reduction modulo `2^64`. -/
def uint64_t (x : Int) : Nat := (x % 2 ^ 64).toNat

/-- The loop `while ((first != last) && is_space(*first)) first++;` with a bound on
the number of iterations; it returns the final `first`. -/
def skip_space (mem : Nat → Char) (last : Nat) : Nat → Nat → Nat
  | 0, first => first
  | fuel + 1, first =>
    if first ≠ last ∧ is_space (mem first) = true then skip_space mem last fuel (first + 1)
    else first

/-- Lines 101–104: the 64-bit `word` built from the adjusted mantissa and the sign.
`uint64_t` arithmetic wraps modulo `2^64`. -/
def assemble_word (fmt : binary_format) (am : adjusted_mantissa) (negative : Bool) : Nat :=
  let word := am.mantissa % 2 ^ 64
  let word := word ||| (uint64_t am.power2 <<< fmt.mantissa_explicit_bits) % 2 ^ 64
  if negative then word ||| (uint64_t 1 <<< fmt.sign_index) % 2 ^ 64 else word

/-- Line 105, `memcpy(&value, &word, sizeof(T))`: the first `sizeof(T)` bytes of
`word` become the object representation of `value`; on a little-endian machine
those are the low `8 * sizeof(T)` bits. -/
def memcpy_word (fmt : binary_format) (word : Nat) : float_value :=
  float_value.of_bits (word % 2 ^ (8 * fmt.sizeof_T))

/-- The function `from_chars(first, last, value)`.  The whitespace loop gets
`last - first` iterations, which is all it can use on a span (`skip_space_spec`). -/
def from_chars (fmt : binary_format) (ext : collaborators) (mem : Nat → Char)
    (first last : Nat) (value : float_value) : from_chars_result × float_value :=
  let first := skip_space mem last (last - first) first
  if first = last then
    ({ ptr := some first, ec := errc.invalid_argument }, value)
  else
    let pns := ext.parse_number_string mem first last
    if ¬ pns.valid = true then
      parse_infnan mem first last value
    else
      let answer : from_chars_result := { ptr := some pns.lastmatch, ec := errc.ok }
      let am :=
        if pns.too_many_digits = true then ext.parse_long_mantissa fmt mem first last
        else ext.compute_float fmt pns.exponent pns.mantissa
      (answer, memcpy_word fmt (assemble_word fmt am pns.negative))

/-! ## Vocabulary of the statements -/

/-- The characters of the span `[first, last)`, in order. -/
def span (mem : Nat → Char) (first last : Nat) : List Char :=
  (List.range (last - first)).map (fun i => mem (first + i))

/-- A memory that holds the characters of `s` from address `0` on, followed by
NUL characters. -/
def memory_of (s : List Char) : Nat → Char :=
  fun i => s.getD i (Char.ofNat 0)

/-- The list `s` begins with the characters of `lit`, compared after lowering
both (case-insensitively). -/
def begins_with_ci (s lit : List Char) : Prop :=
  lit.length ≤ s.length ∧ (s.take lit.length).map Char.toLower = lit.map Char.toLower

instance (s lit : List Char) : Decidable (begins_with_ci s lit) := by
  unfold begins_with_ci; infer_instance

/-- The spellings `word`, `+word` and `-word`. -/
def signed_spelling (s word : List Char) : Prop :=
  begins_with_ci s word ∨ begins_with_ci s ('+' :: word) ∨ begins_with_ci s ('-' :: word)

instance (s word : List Char) : Decidable (signed_spelling s word) := by
  unfold signed_spelling; infer_instance

/-- The span begins with an optional single sign followed by `nan`. -/
def nan_spelling (s : List Char) : Prop := signed_spelling s ['n', 'a', 'n']

/-- The span begins with an optional single sign followed by `inf`. -/
def inf_spelling (s : List Char) : Prop := signed_spelling s ['i', 'n', 'f']

instance (s : List Char) : Decidable (nan_spelling s) := by
  unfold nan_spelling; infer_instance

instance (s : List Char) : Decidable (inf_spelling s) := by
  unfold inf_spelling; infer_instance

/-- The value is negated, of the form `-v`. -/
def negated : float_value → Bool
  | float_value.neg _ => true
  | _ => false

/-! ## Concrete instances used to evaluate the functions -/

/-- The constants of `binary_format<float>`: 23 explicit mantissa bits, the sign at
bit 31, and `sizeof(float) = 4`. -/
def binary32 : binary_format :=
  { mantissa_explicit_bits := 23, sign_index := 31, sizeof_T := 4 }

/-- Collaborators that answer the same on every input: the scanner returns `pns`,
the fast converter `fast` and the exact fallback `exact`. -/
def constant_collaborators (pns : parsed_number_string) (fast exact : adjusted_mantissa) :
    collaborators :=
  { parse_number_string := fun _ _ _ => pns
    compute_float := fun _ _ _ => fast
    parse_long_mantissa := fun _ _ _ _ => exact }

/-- The scanner's answer on a span that is no literal: `valid = false`. -/
def pns_invalid : parsed_number_string :=
  { exponent := 0, mantissa := 0, lastmatch := 0, negative := false, valid := false,
    too_many_digits := false }

/-- The scanner's answer on the literal `1` at address `0`: mantissa `1`, exponent
`0`, one character matched. -/
def pns_one : parsed_number_string :=
  { exponent := 0, mantissa := 1, lastmatch := 1, negative := false, valid := true,
    too_many_digits := false }

/-- The adjusted mantissa of `1.0f`: biased exponent 127, explicit mantissa bits 0. -/
def am_one : adjusted_mantissa := { mantissa := 0, power2 := 127 }

/-- An adjusted mantissa with the negative `power2` that marks an inconclusive fast
path. -/
def am_sentinel : adjusted_mantissa := { mantissa := 0, power2 := -1 }

/-- Collaborators whose scanner reports, on every span, the literal one (mantissa
`1`, exponent `0`) matched up to `last`, with the sign read from the first
character; the converters answer `fast` and `exact`. -/
def sign_reading_collaborators (fast exact : adjusted_mantissa) : collaborators :=
  { parse_number_string := fun mem first last =>
      { exponent := 0, mantissa := 1, lastmatch := last,
        negative := decide (mem first = '-'), valid := true, too_many_digits := false }
    compute_float := fun _ _ _ => fast
    parse_long_mantissa := fun _ _ _ _ => exact }

/-! ## Lemmas on the helpers -/

theorem char_toNat_sub_ne_zero {c1 c2 : Char} (h : c1 ≠ c2) :
    (c1.toNat : Int) - (c2.toNat : Int) ≠ 0 := by
  intro h0
  apply h
  have h1 : c1.toNat = c2.toNat := by omega
  rw [← Char.ofNat_toNat c1, ← Char.ofNat_toNat c2, h1]

/-- When the literal has at least `n` characters and none of them lowers to NUL,
the comparison returns `0` exactly when the `n` characters of memory from `s1` on
agree with the literal after lowering. -/
theorem strncasecmp_eq_zero_iff (mem : Nat → Char) (n : Nat) :
    ∀ (s1 : Nat) (s2 : List Char), n ≤ s2.length →
      (∀ c ∈ s2, c.toLower ≠ Char.ofNat 0) →
      (fastfloat_strncasecmp mem s1 s2 n = 0 ↔
        ∀ i, i < n → (mem (s1 + i)).toLower = (s2.getD i (Char.ofNat 0)).toLower) := by
  induction n with
  | zero => intro s1 s2 _ _; simp [fastfloat_strncasecmp]
  | succ n ih =>
    intro s1 s2 hlen hnul
    cases s2 with
    | nil => simp at hlen
    | cons c cs =>
      have hc : c.toLower ≠ Char.ofNat 0 := hnul c (List.mem_cons_self _ _)
      have hcs : ∀ d ∈ cs, d.toLower ≠ Char.ofNat 0 :=
        fun d hd => hnul d (List.mem_cons_of_mem _ hd)
      have hlen2 : n ≤ cs.length := by simpa using hlen
      simp only [fastfloat_strncasecmp, List.headD_cons, List.tail_cons]
      by_cases h1 : (mem s1).toLower = c.toLower
      · have h2 : ¬ (mem s1).toLower = Char.ofNat 0 := by rw [h1]; exact hc
        simp only [h1, ne_eq, not_true_eq_false, if_false]
        rw [← h1, if_neg h2, ih (s1 + 1) cs hlen2 hcs]
        constructor
        · intro h i hi
          cases i with
          | zero => simpa using h1
          | succ j =>
            have := h j (by omega)
            simpa [Nat.add_assoc, Nat.add_comm 1 j] using this
        · intro h i hi
          have := h (i + 1) (by omega)
          simpa [Nat.add_assoc, Nat.add_comm 1 i] using this
      · simp only [ne_eq, h1, not_false_eq_true, if_true]
        constructor
        · intro h; exact absurd h (char_toNat_sub_ne_zero h1)
        · intro h; exact absurd (by simpa using h 0 (by omega)) h1

theorem span_length (mem : Nat → Char) (first last : Nat) :
    (span mem first last).length = last - first := by
  simp [span]

theorem span_getD (mem : Nat → Char) (first last i : Nat) (h : i < last - first) :
    (span mem first last).getD i (Char.ofNat 0) = mem (first + i) := by
  simp [span, List.getD_eq_getElem?_getD, List.getElem?_map, List.getElem?_range h]

/-- Agreement of `lit.length` characters of memory with `lit`, when the span is
long enough, is `begins_with_ci` on the span. -/
theorem begins_with_ci_span (mem : Nat → Char) (first last : Nat) (lit : List Char)
    (hlen : lit.length ≤ last - first) :
    (∀ i, i < lit.length →
        (mem (first + i)).toLower = (lit.getD i (Char.ofNat 0)).toLower) ↔
      begins_with_ci (span mem first last) lit := by
  unfold begins_with_ci
  rw [span_length]
  constructor
  · intro h
    refine ⟨hlen, ?_⟩
    apply List.ext_getElem
    · simp [span_length]; exact hlen
    · intro i h1 h2
      have hi : i < lit.length := by simpa using h2
      have := h i hi
      simp [span, List.getElem_take, List.getD_eq_getElem?_getD, hi] at this ⊢
      exact this
  · rintro ⟨_, h⟩ i hi
    have h3 := congrArg (fun l => l.getD i (Char.ofNat 0)) h
    simp only [List.getD_eq_getElem?_getD, List.getElem?_map, List.getElem?_take] at h3
    have hi2 : i < (span mem first last).length := by rw [span_length]; omega
    simp [hi, span, List.getElem?_range (show i < last - first by omega)] at h3
    simp [List.getD_eq_getElem?_getD, hi]
    exact h3

theorem begins_with_ci_getD {s lit : List Char} (h : begins_with_ci s lit) (i : Nat)
    (hi : i < lit.length) :
    (s.getD i (Char.ofNat 0)).toLower = (lit.getD i (Char.ofNat 0)).toLower := by
  obtain ⟨hlen, h⟩ := h
  have h3 := congrArg (fun l => l.getD i (Char.ofNat 0)) h
  have hi2 : i < s.length := by omega
  simp only [List.getD_eq_getElem?_getD, List.getElem?_map, List.getElem?_take] at h3
  simp [hi, hi2] at h3
  simp [List.getD_eq_getElem?_getD, hi, hi2]
  exact h3

/-- Two literals that a list begins with agree, after lowering, wherever both have
a character. -/
theorem begins_with_ci_agree {s a b : List Char} (ha : begins_with_ci s a)
    (hb : begins_with_ci s b) (i : Nat) (hia : i < a.length) (hib : i < b.length) :
    (a.getD i (Char.ofNat 0)).toLower = (b.getD i (Char.ofNat 0)).toLower := by
  rw [← begins_with_ci_getD ha i hia, ← begins_with_ci_getD hb i hib]

theorem begins_with_ci_length {s lit : List Char} (h : begins_with_ci s lit) :
    lit.length ≤ s.length := h.1

/-- A call of `fastfloat_strncasecmp` on the start of a span that is long enough
tests `begins_with_ci` on the span. -/
theorem strncasecmp_span (mem : Nat → Char) (first last : Nat) (lit : List Char)
    (hnul : ∀ c ∈ lit, c.toLower ≠ Char.ofNat 0) (hlen : lit.length ≤ last - first) :
    (fastfloat_strncasecmp mem first lit lit.length = 0 ↔
      begins_with_ci (span mem first last) lit) := by
  rw [strncasecmp_eq_zero_iff mem lit.length first lit (Nat.le_refl _) hnul]
  exact begins_with_ci_span mem first last lit hlen

/-- A list cannot begin with two literals that differ, after lowering, at a
position both have. -/
theorem begins_with_ci_excl {s a b : List Char} (i : Nat) (hia : i < a.length)
    (hib : i < b.length)
    (hne : (a.getD i (Char.ofNat 0)).toLower ≠ (b.getD i (Char.ofNat 0)).toLower) :
    begins_with_ci s a → ¬ begins_with_ci s b :=
  fun ha hb => hne (begins_with_ci_agree ha hb i hia hib)

/-- What `parse_infnan` returns as status and value, in terms of the spellings the
span begins with. -/
theorem parse_infnan_status_value (mem : Nat → Char) (first last : Nat) (value : float_value) :
    (nan_spelling (span mem first last) →
      (parse_infnan mem first last value).1.ec = errc.ok ∧
      ((parse_infnan mem first last value).2 = float_value.quiet_NaN ∨
        (parse_infnan mem first last value).2 = float_value.neg float_value.quiet_NaN)) ∧
    (inf_spelling (span mem first last) →
      (parse_infnan mem first last value).1.ec = errc.ok ∧
      ((parse_infnan mem first last value).2 = float_value.infinity ∨
        (parse_infnan mem first last value).2 = float_value.neg float_value.infinity)) ∧
    (¬ nan_spelling (span mem first last) → ¬ inf_spelling (span mem first last) →
      (parse_infnan mem first last value).1.ec = errc.invalid_argument ∧
      (parse_infnan mem first last value).2 = value) := by
  have hnan : last - first ≥ 3 →
      (fastfloat_strncasecmp mem first ['n', 'a', 'n'] 3 = 0 ↔
        begins_with_ci (span mem first last) ['n', 'a', 'n']) :=
    fun h => strncasecmp_span mem first last ['n', 'a', 'n'] (by decide) h
  have hinf : last - first ≥ 3 →
      (fastfloat_strncasecmp mem first ['i', 'n', 'f'] 3 = 0 ↔
        begins_with_ci (span mem first last) ['i', 'n', 'f']) :=
    fun h => strncasecmp_span mem first last ['i', 'n', 'f'] (by decide) h
  have hpnan : last - first ≥ 4 →
      (fastfloat_strncasecmp mem first ['+', 'n', 'a', 'n'] 4 = 0 ↔
        begins_with_ci (span mem first last) ['+', 'n', 'a', 'n']) :=
    fun h => strncasecmp_span mem first last ['+', 'n', 'a', 'n'] (by decide) h
  have hmnan : last - first ≥ 4 →
      (fastfloat_strncasecmp mem first ['-', 'n', 'a', 'n'] 4 = 0 ↔
        begins_with_ci (span mem first last) ['-', 'n', 'a', 'n']) :=
    fun h => strncasecmp_span mem first last ['-', 'n', 'a', 'n'] (by decide) h
  have hpinf : last - first ≥ 4 →
      (fastfloat_strncasecmp mem first ['+', 'i', 'n', 'f'] 4 = 0 ↔
        begins_with_ci (span mem first last) ['+', 'i', 'n', 'f']) :=
    fun h => strncasecmp_span mem first last ['+', 'i', 'n', 'f'] (by decide) h
  have hminf : last - first ≥ 4 →
      (fastfloat_strncasecmp mem first ['-', 'i', 'n', 'f'] 4 = 0 ↔
        begins_with_ci (span mem first last) ['-', 'i', 'n', 'f']) :=
    fun h => strncasecmp_span mem first last ['-', 'i', 'n', 'f'] (by decide) h
  have hshort : ∀ lit, last - first < lit.length → ¬ begins_with_ci (span mem first last) lit := by
    intro lit h hb
    have := begins_with_ci_length hb
    rw [span_length] at this
    omega
  have e1 : begins_with_ci (span mem first last) ['n', 'a', 'n'] →
      ¬ begins_with_ci (span mem first last) ['i', 'n', 'f'] :=
    begins_with_ci_excl 0 (by decide) (by decide) (by decide)
  have e2 : begins_with_ci (span mem first last) ['n', 'a', 'n'] →
      ¬ begins_with_ci (span mem first last) ['+', 'i', 'n', 'f'] :=
    begins_with_ci_excl 0 (by decide) (by decide) (by decide)
  have e3 : begins_with_ci (span mem first last) ['n', 'a', 'n'] →
      ¬ begins_with_ci (span mem first last) ['-', 'i', 'n', 'f'] :=
    begins_with_ci_excl 0 (by decide) (by decide) (by decide)
  have e4 : begins_with_ci (span mem first last) ['i', 'n', 'f'] →
      ¬ begins_with_ci (span mem first last) ['+', 'n', 'a', 'n'] :=
    begins_with_ci_excl 0 (by decide) (by decide) (by decide)
  have e5 : begins_with_ci (span mem first last) ['i', 'n', 'f'] →
      ¬ begins_with_ci (span mem first last) ['-', 'n', 'a', 'n'] :=
    begins_with_ci_excl 0 (by decide) (by decide) (by decide)
  have e6 : begins_with_ci (span mem first last) ['+', 'n', 'a', 'n'] →
      ¬ begins_with_ci (span mem first last) ['+', 'i', 'n', 'f'] :=
    begins_with_ci_excl 1 (by decide) (by decide) (by decide)
  have e7 : begins_with_ci (span mem first last) ['+', 'n', 'a', 'n'] →
      ¬ begins_with_ci (span mem first last) ['-', 'i', 'n', 'f'] :=
    begins_with_ci_excl 0 (by decide) (by decide) (by decide)
  have e8 : begins_with_ci (span mem first last) ['-', 'n', 'a', 'n'] →
      ¬ begins_with_ci (span mem first last) ['+', 'i', 'n', 'f'] :=
    begins_with_ci_excl 0 (by decide) (by decide) (by decide)
  have e9 : begins_with_ci (span mem first last) ['-', 'n', 'a', 'n'] →
      ¬ begins_with_ci (span mem first last) ['-', 'i', 'n', 'f'] :=
    begins_with_ci_excl 1 (by decide) (by decide) (by decide)
  have hshort3 : ¬ last - first ≥ 3 → ¬ last - first ≥ 4 := by omega
  unfold nan_spelling inf_spelling signed_spelling parse_infnan
  dsimp only
  split_ifs with c3 cn ci c8 c4 csn cm csi c9 cm2 cm3
  all_goals (try rw [hnan c3] at cn)
  all_goals (try rw [hinf c3] at ci)
  all_goals (try rw [hpnan c4, hmnan c4] at csn)
  all_goals (try rw [hpinf c4, hminf c4] at csi)
  all_goals (try have s5 := hshort ['n', 'a', 'n'] (by simp only [List.length_cons, List.length_nil]; omega))
  all_goals (try have s6 := hshort ['i', 'n', 'f'] (by simp only [List.length_cons, List.length_nil]; omega))
  all_goals (try have s1 := hshort ['+', 'n', 'a', 'n'] (by simp only [List.length_cons, List.length_nil]; omega))
  all_goals (try have s2 := hshort ['-', 'n', 'a', 'n'] (by simp only [List.length_cons, List.length_nil]; omega))
  all_goals (try have s3 := hshort ['+', 'i', 'n', 'f'] (by simp only [List.length_cons, List.length_nil]; omega))
  all_goals (try have s4 := hshort ['-', 'i', 'n', 'f'] (by simp only [List.length_cons, List.length_nil]; omega))
  all_goals clear hnan hinf hpnan hmnan hpinf hminf hshort
  all_goals simp only [reduceCtorEq, and_true, true_and, and_false, false_and, or_true, true_or,
    or_false, false_or, float_value.neg.injEq, not_true_eq_false, not_false_eq_true]
  all_goals generalize begins_with_ci (span mem first last) ['n', 'a', 'n'] = A at *
  all_goals generalize begins_with_ci (span mem first last) ['i', 'n', 'f'] = B at *
  all_goals generalize begins_with_ci (span mem first last) ['+', 'n', 'a', 'n'] = C at *
  all_goals generalize begins_with_ci (span mem first last) ['-', 'n', 'a', 'n'] = D at *
  all_goals generalize begins_with_ci (span mem first last) ['+', 'i', 'n', 'f'] = E at *
  all_goals generalize begins_with_ci (span mem first last) ['-', 'i', 'n', 'f'] = F at *
  all_goals clear hshort3
  all_goals (try clear c8)
  all_goals (try clear c9)
  all_goals (simp_all <;> tauto)


/-! ## The whitespace loop -/

/-- The whitespace loop, given at least `last - first` iterations on a span, stops
at the first address of the span that holds no whitespace, or at `last`. -/
theorem skip_space_spec (mem : Nat → Char) (last : Nat) :
    ∀ (fuel first : Nat), first ≤ last → last - first ≤ fuel →
      first ≤ skip_space mem last fuel first ∧ skip_space mem last fuel first ≤ last ∧
      (∀ a, first ≤ a → a < skip_space mem last fuel first → is_space (mem a) = true) ∧
      (skip_space mem last fuel first = last ∨
        is_space (mem (skip_space mem last fuel first)) = false) := by
  intro fuel
  induction fuel with
  | zero =>
    intro first h1 h2
    have : first = last := by omega
    simp only [skip_space]
    exact ⟨Nat.le_refl _, h1, fun a h3 h4 => absurd h4 (by omega), Or.inl this⟩
  | succ fuel ih =>
    intro first h1 h2
    simp only [skip_space]
    split_ifs with hc
    · obtain ⟨q1, q2, q3, q4⟩ := ih (first + 1) (by omega) (by omega)
      refine ⟨by omega, q2, ?_, q4⟩
      intro a h3 h4
      by_cases ha : a = first
      · rw [ha]; exact hc.2
      · exact q3 a (by omega) h4
    · refine ⟨Nat.le_refl _, h1, fun a h3 h4 => absurd h4 (by omega), ?_⟩
      by_cases hl : first = last
      · exact Or.inl hl
      · right
        have : ¬ is_space (mem first) = true := fun h => hc ⟨hl, h⟩
        simpa using this

/-- On a span of whitespace only the loop runs to `last`. -/
theorem skip_space_all (mem : Nat → Char) (first last : Nat) (h : first ≤ last)
    (hw : ∀ a, first ≤ a → a < last → is_space (mem a) = true) :
    skip_space mem last (last - first) first = last := by
  obtain ⟨_, q2, _, q4⟩ := skip_space_spec mem last (last - first) first h (Nat.le_refl _)
  rcases q4 with q4 | q4
  · exact q4
  · by_contra hne
    have := hw (skip_space mem last (last - first) first) (by assumption) (by omega)
    rw [this] at q4
    exact absurd q4 (by decide)

/-- The three exits of `from_chars`, as equations. -/
theorem from_chars_empty (fmt : binary_format) (ext : collaborators) (mem : Nat → Char)
    (first last : Nat) (value : float_value)
    (h : skip_space mem last (last - first) first = last) :
    from_chars fmt ext mem first last value =
      ({ ptr := some last, ec := errc.invalid_argument }, value) := by
  simp [from_chars, h]

theorem from_chars_invalid (fmt : binary_format) (ext : collaborators) (mem : Nat → Char)
    (first last : Nat) (value : float_value)
    (h : skip_space mem last (last - first) first ≠ last)
    (hv : (ext.parse_number_string mem
      (skip_space mem last (last - first) first) last).valid = false) :
    from_chars fmt ext mem first last value =
      parse_infnan mem (skip_space mem last (last - first) first) last value := by
  simp [from_chars, h, hv]

theorem from_chars_valid (fmt : binary_format) (ext : collaborators) (mem : Nat → Char)
    (first last : Nat) (value : float_value)
    (h : skip_space mem last (last - first) first ≠ last)
    (hv : (ext.parse_number_string mem
      (skip_space mem last (last - first) first) last).valid = true) :
    from_chars fmt ext mem first last value =
      ({ ptr := some (ext.parse_number_string mem
            (skip_space mem last (last - first) first) last).lastmatch, ec := errc.ok },
        memcpy_word fmt (assemble_word fmt
          (if (ext.parse_number_string mem
              (skip_space mem last (last - first) first) last).too_many_digits = true
            then ext.parse_long_mantissa fmt mem (skip_space mem last (last - first) first) last
            else ext.compute_float fmt
              (ext.parse_number_string mem
                (skip_space mem last (last - first) first) last).exponent
              (ext.parse_number_string mem
                (skip_space mem last (last - first) first) last).mantissa)
          (ext.parse_number_string mem
            (skip_space mem last (last - first) first) last).negative)) := by
  simp [from_chars, h, hv]



/-! ## A normal form of `parse_infnan` -/

/-- The same, with the number of characters compared given as a numeral. -/
theorem strncasecmp_span_len (mem : Nat → Char) (first last : Nat) (lit : List Char)
    (n : Nat) (hn : lit.length = n) (hnul : ∀ c ∈ lit, c.toLower ≠ Char.ofNat 0)
    (hlen : n ≤ last - first) :
    (fastfloat_strncasecmp mem first lit n = 0 ↔
      begins_with_ci (span mem first last) lit) := by
  subst hn
  exact strncasecmp_span mem first last lit hnul hlen

/-- The result of `parse_infnan` with every comparison that stays inside the span
replaced by `begins_with_ci` on the span.  The comparison of the signed `infinity`
(line 57) is kept as the code has it. -/
theorem parse_infnan_eq (mem : Nat → Char) (first last : Nat) (value : float_value) :
    parse_infnan mem first last value =
      if begins_with_ci (span mem first last) ['n', 'a', 'n'] then
        ({ ptr := some (first + 3), ec := errc.ok }, float_value.quiet_NaN)
      else if begins_with_ci (span mem first last) ['i', 'n', 'f'] then
        ({ ptr := some (first +
            if begins_with_ci (span mem first last) ['i', 'n', 'f', 'i', 'n', 'i', 't', 'y']
            then 8 else 3), ec := errc.ok }, float_value.infinity)
      else if begins_with_ci (span mem first last) ['+', 'n', 'a', 'n'] ∨
          begins_with_ci (span mem first last) ['-', 'n', 'a', 'n'] then
        ({ ptr := some (first + 4), ec := errc.ok },
          if mem first = '-' then float_value.neg float_value.quiet_NaN
          else float_value.quiet_NaN)
      else if begins_with_ci (span mem first last) ['+', 'i', 'n', 'f'] ∨
          begins_with_ci (span mem first last) ['-', 'i', 'n', 'f'] then
        ({ ptr := some (first +
            if last - first ≥ 8 ∧ fastfloat_strncasecmp mem (first + 1)
              ['i', 'n', 'f', 'i', 'n', 'i', 't', 'y'] 8 = 0 then 9 else 4), ec := errc.ok },
          if mem first = '-' then float_value.neg float_value.infinity
          else float_value.infinity)
      else ({ ptr := none, ec := errc.invalid_argument }, value) := by
  have hshort : ∀ lit, last - first < lit.length →
      (begins_with_ci (span mem first last) lit ↔ False) := by
    intro lit h
    constructor
    · intro hb
      have := begins_with_ci_length hb
      rw [span_length] at this
      omega
    · exact False.elim
  unfold parse_infnan
  dsimp only
  by_cases h3 : last - first ≥ 3
  · rw [if_pos h3]
    simp only [strncasecmp_span_len mem first last ['n', 'a', 'n'] 3 rfl (by decide) h3]
    simp only [strncasecmp_span_len mem first last ['i', 'n', 'f'] 3 rfl (by decide) h3]
    by_cases h4 : last - first ≥ 4
    · rw [if_pos h4]
      simp only [strncasecmp_span_len mem first last ['+', 'n', 'a', 'n'] 4 rfl (by decide) h4]
      simp only [strncasecmp_span_len mem first last ['-', 'n', 'a', 'n'] 4 rfl (by decide) h4]
      simp only [strncasecmp_span_len mem first last ['+', 'i', 'n', 'f'] 4 rfl (by decide) h4]
      simp only [strncasecmp_span_len mem first last ['-', 'i', 'n', 'f'] 4 rfl (by decide) h4]
      by_cases h8 : last - first ≥ 8
      · simp only [strncasecmp_span_len mem first last ['i', 'n', 'f', 'i', 'n', 'i', 't', 'y'] 8 rfl
          (by decide) h8]
        simp only [h8, true_and]
        split_ifs <;> rfl
      · simp only [hshort ['i', 'n', 'f', 'i', 'n', 'i', 't', 'y']
          (by simp only [List.length_cons, List.length_nil]; omega)]
        simp only [h8, false_and, if_false]
    · rw [if_neg h4]
      simp only [hshort ['+', 'n', 'a', 'n']
        (by simp only [List.length_cons, List.length_nil]; omega)]
      simp only [hshort ['-', 'n', 'a', 'n']
        (by simp only [List.length_cons, List.length_nil]; omega)]
      simp only [hshort ['+', 'i', 'n', 'f']
        (by simp only [List.length_cons, List.length_nil]; omega)]
      simp only [hshort ['-', 'i', 'n', 'f']
        (by simp only [List.length_cons, List.length_nil]; omega)]
      simp only [hshort ['i', 'n', 'f', 'i', 'n', 'i', 't', 'y']
        (by simp only [List.length_cons, List.length_nil]; omega)]
      have h8 : ¬ last - first ≥ 8 := by omega
      simp only [h8, false_and, or_self, if_false]
  · rw [if_neg h3]
    simp only [hshort ['n', 'a', 'n']
      (by simp only [List.length_cons, List.length_nil]; omega)]
    simp only [hshort ['i', 'n', 'f']
      (by simp only [List.length_cons, List.length_nil]; omega)]
    simp only [hshort ['+', 'n', 'a', 'n']
      (by simp only [List.length_cons, List.length_nil]; omega)]
    simp only [hshort ['-', 'n', 'a', 'n']
      (by simp only [List.length_cons, List.length_nil]; omega)]
    simp only [hshort ['+', 'i', 'n', 'f']
      (by simp only [List.length_cons, List.length_nil]; omega)]
    simp only [hshort ['-', 'i', 'n', 'f']
      (by simp only [List.length_cons, List.length_nil]; omega)]
    simp only [or_self, if_false]

theorem span_head (mem : Nat → Char) (first last : Nat) (h : first < last) :
    (span mem first last).head? = some (mem first) := by
  unfold span
  obtain ⟨k, hk⟩ : ∃ k, last - first = k + 1 := ⟨last - first - 1, by omega⟩
  rw [hk, List.range_succ_eq_map]
  simp

/-- A span that begins with a literal is not empty and its first character, lowered,
is the literal's. -/
theorem begins_with_ci_first (mem : Nat → Char) (first last : Nat) (c : Char)
    (rest : List Char) (h : begins_with_ci (span mem first last) (c :: rest)) :
    first < last ∧ (mem first).toLower = c.toLower := by
  have hl := begins_with_ci_length h
  rw [span_length] at hl
  simp only [List.length_cons] at hl
  have h0 := begins_with_ci_getD h 0 (by simp)
  rw [span_getD mem first last 0 (by omega)] at h0
  exact ⟨by omega, by simpa using h0⟩

/-! ## Claims -/

/-- C1: on a span `[first, last)`, with `p` the position reached by skipping the
leading whitespace, `from_chars` returns `invalid_argument` exactly when `p = last`
or the scanner reports the remainder invalid and `parse_infnan` fails on it; in
every other case the status is `ok`; and when the scanner reports a valid literal
the status is `ok` and the pointer is the scanner's `lastmatch`, whatever the
converters return. -/
theorem from_chars_status (fmt : binary_format) (ext : collaborators) (mem : Nat → Char)
    (first last : Nat) (value : float_value) (h : first ≤ last) :
    ∃ p, first ≤ p ∧ p ≤ last ∧
      (∀ a, first ≤ a → a < p → is_space (mem a) = true) ∧
      (p = last ∨ is_space (mem p) = false) ∧
      ((from_chars fmt ext mem first last value).1.ec = errc.invalid_argument ↔
        (p = last ∨ ((ext.parse_number_string mem p last).valid = false ∧
          (parse_infnan mem p last value).1.ec = errc.invalid_argument))) ∧
      ((from_chars fmt ext mem first last value).1.ec ≠ errc.invalid_argument →
        (from_chars fmt ext mem first last value).1.ec = errc.ok) ∧
      (p ≠ last → (ext.parse_number_string mem p last).valid = true →
        (from_chars fmt ext mem first last value).1 =
          { ptr := some (ext.parse_number_string mem p last).lastmatch, ec := errc.ok }) := by
  obtain ⟨q1, q2, q3, q4⟩ := skip_space_spec mem last (last - first) first h (Nat.le_refl _)
  refine ⟨skip_space mem last (last - first) first, q1, q2, q3, q4, ?_, ?_, ?_⟩
  · by_cases hp : skip_space mem last (last - first) first = last
    · rw [from_chars_empty fmt ext mem first last value hp]
      simp [hp]
    · cases hv : (ext.parse_number_string mem
          (skip_space mem last (last - first) first) last).valid
      · rw [from_chars_invalid fmt ext mem first last value hp hv]
        simp [hp]
      · rw [from_chars_valid fmt ext mem first last value hp hv]
        simp [hp]
  · intro hne
    cases hec : (from_chars fmt ext mem first last value).1.ec
    · rfl
    · exact absurd hec hne
  · intro hp hv
    rw [from_chars_valid fmt ext mem first last value hp hv]

/-- C1, at the literal `1` in a one-character span. -/
theorem from_chars_status_witness :
    ∃ p, 0 ≤ p ∧ p ≤ 1 ∧
      (∀ a, 0 ≤ a → a < p → is_space (memory_of ['1'] a) = true) ∧
      (p = 1 ∨ is_space (memory_of ['1'] p) = false) ∧
      ((from_chars binary32 (constant_collaborators pns_one am_one am_one)
          (memory_of ['1']) 0 1 float_value.quiet_NaN).1.ec = errc.invalid_argument ↔
        (p = 1 ∨ (((constant_collaborators pns_one am_one am_one).parse_number_string
            (memory_of ['1']) p 1).valid = false ∧
          (parse_infnan (memory_of ['1']) p 1 float_value.quiet_NaN).1.ec =
            errc.invalid_argument))) ∧
      ((from_chars binary32 (constant_collaborators pns_one am_one am_one)
          (memory_of ['1']) 0 1 float_value.quiet_NaN).1.ec ≠ errc.invalid_argument →
        (from_chars binary32 (constant_collaborators pns_one am_one am_one)
          (memory_of ['1']) 0 1 float_value.quiet_NaN).1.ec = errc.ok) ∧
      (p ≠ 1 → ((constant_collaborators pns_one am_one am_one).parse_number_string
          (memory_of ['1']) p 1).valid = true →
        (from_chars binary32 (constant_collaborators pns_one am_one am_one)
          (memory_of ['1']) 0 1 float_value.quiet_NaN).1 =
          { ptr := some ((constant_collaborators pns_one am_one am_one).parse_number_string
              (memory_of ['1']) p 1).lastmatch, ec := errc.ok }) :=
  from_chars_status binary32 (constant_collaborators pns_one am_one am_one)
    (memory_of ['1']) 0 1 float_value.quiet_NaN (by decide)

/-- C2: `parse_infnan` returns `ok` exactly when the span begins,
case-insensitively, with an optional single `+` or `-` followed by `nan` or `inf`;
the value is then a quiet NaN (plain or negated) in the `nan` case and an infinity
(plain or negated) in the `inf` case; on every other span, every span of fewer
than 3 characters included, it returns `invalid_argument`. -/
theorem parse_infnan_recognizes (mem : Nat → Char) (first last : Nat) (value : float_value) :
    ((parse_infnan mem first last value).1.ec = errc.ok ↔
      (nan_spelling (span mem first last) ∨ inf_spelling (span mem first last))) ∧
    (nan_spelling (span mem first last) →
      ((parse_infnan mem first last value).2 = float_value.quiet_NaN ∨
        (parse_infnan mem first last value).2 = float_value.neg float_value.quiet_NaN)) ∧
    (inf_spelling (span mem first last) →
      ((parse_infnan mem first last value).2 = float_value.infinity ∨
        (parse_infnan mem first last value).2 = float_value.neg float_value.infinity)) ∧
    (¬ (nan_spelling (span mem first last) ∨ inf_spelling (span mem first last)) →
      (parse_infnan mem first last value).1.ec = errc.invalid_argument) ∧
    ((span mem first last).length < 3 →
      (parse_infnan mem first last value).1.ec = errc.invalid_argument) := by
  obtain ⟨k1, k2, k3⟩ := parse_infnan_status_value mem first last value
  have k4 : ¬ (nan_spelling (span mem first last) ∨ inf_spelling (span mem first last)) →
      (parse_infnan mem first last value).1.ec = errc.invalid_argument :=
    fun hn => (k3 (fun hnan => hn (Or.inl hnan)) (fun hinf => hn (Or.inr hinf))).1
  refine ⟨⟨?_, ?_⟩, fun hn => (k1 hn).2, fun hi => (k2 hi).2, k4, ?_⟩
  · intro hok
    by_contra hn
    rw [k4 hn] at hok
    exact absurd hok (by decide)
  · rintro (hn | hi)
    · exact (k1 hn).1
    · exact (k2 hi).1
  · intro hlen
    apply k4
    have hshort : ∀ lit : List Char, 3 ≤ lit.length →
        ¬ begins_with_ci (span mem first last) lit :=
      fun lit hl hb => absurd (begins_with_ci_length hb) (by omega)
    unfold nan_spelling inf_spelling signed_spelling
    rintro ((hb | hb | hb) | (hb | hb | hb)) <;>
      exact hshort _ (by simp only [List.length_cons, List.length_nil]; omega) hb

/-- C2, at the span `+NaN`. -/
theorem parse_infnan_recognizes_witness :
    nan_spelling (span (memory_of ['+', 'N', 'a', 'N']) 0 4) ∧
    ((parse_infnan (memory_of ['+', 'N', 'a', 'N']) 0 4 (float_value.of_bits 0)).2 =
        float_value.quiet_NaN ∨
      (parse_infnan (memory_of ['+', 'N', 'a', 'N']) 0 4 (float_value.of_bits 0)).2 =
        float_value.neg float_value.quiet_NaN) :=
  ⟨by decide,
    (parse_infnan_recognizes (memory_of ['+', 'N', 'a', 'N']) 0 4
      (float_value.of_bits 0)).2.1 (by decide)⟩

/-- C3: on the 8-character span `-infinit` followed in memory by `y`, the span
begins with `-inf` and not with `-infinity`, so its longest spelling has 4
characters, and `parse_infnan` reports 9 characters consumed. -/
theorem parse_infnan_signed_infinity_count :
    span (memory_of ['-', 'i', 'n', 'f', 'i', 'n', 'i', 't', 'y']) 0 8 =
      ['-', 'i', 'n', 'f', 'i', 'n', 'i', 't'] ∧
    begins_with_ci (span (memory_of ['-', 'i', 'n', 'f', 'i', 'n', 'i', 't', 'y']) 0 8)
      ['-', 'i', 'n', 'f'] ∧
    ¬ begins_with_ci (span (memory_of ['-', 'i', 'n', 'f', 'i', 'n', 'i', 't', 'y']) 0 8)
      ['-', 'i', 'n', 'f', 'i', 'n', 'i', 't', 'y'] ∧
    (parse_infnan (memory_of ['-', 'i', 'n', 'f', 'i', 'n', 'i', 't', 'y']) 0 8
      (float_value.of_bits 0)).1 = { ptr := some (0 + 9), ec := errc.ok } := by
  decide

/-- C4: on the span `abc`, which the scanner reports invalid and which is no
special value, `from_chars` returns `invalid_argument` with a pointer that no
statement assigned, not the start of the span. -/
theorem from_chars_invalid_pointer_unassigned :
    (from_chars binary32 (constant_collaborators pns_invalid am_one am_one)
      (memory_of ['a', 'b', 'c']) 0 3 (float_value.of_bits 0)).1 =
      { ptr := none, ec := errc.invalid_argument } ∧
    (from_chars binary32 (constant_collaborators pns_invalid am_one am_one)
      (memory_of ['a', 'b', 'c']) 0 3 (float_value.of_bits 0)).1.ptr ≠ some 0 := by
  decide

/-- C5, as stated, fails on the one-character span holding a space: `from_chars`
returns `invalid_argument` with the pointer at `last = 1`, not at the start `0`. -/
theorem from_chars_whitespace_start_counterexample :
    span (memory_of [' ']) 0 1 = [' '] ∧ is_space ' ' = true ∧
    (from_chars binary32 (constant_collaborators pns_invalid am_one am_one)
      (memory_of [' ']) 0 1 (float_value.of_bits 0)).1 =
      { ptr := some 1, ec := errc.invalid_argument } ∧
    (from_chars binary32 (constant_collaborators pns_invalid am_one am_one)
      (memory_of [' ']) 0 1 (float_value.of_bits 0)).1.ptr ≠ some 0 := by
  decide

/-- C5, amended: on a span that consists only of whitespace characters (zero or
more), `from_chars` fails with `invalid_argument`, leaves the value as it was, and
returns the pointer `last`, the position reached after skipping the whitespace. -/
theorem from_chars_whitespace_only (fmt : binary_format) (ext : collaborators)
    (mem : Nat → Char) (first last : Nat) (value : float_value) (h : first ≤ last)
    (hw : ∀ a, first ≤ a → a < last → is_space (mem a) = true) :
    from_chars fmt ext mem first last value =
      ({ ptr := some last, ec := errc.invalid_argument }, value) :=
  from_chars_empty fmt ext mem first last value (skip_space_all mem first last h hw)

/-- C5 amended, at the span made of a space and a tab. -/
theorem from_chars_whitespace_only_witness :
    from_chars binary32 (constant_collaborators pns_invalid am_one am_one)
      (memory_of [' ', '\t']) 0 2 (float_value.of_bits 0) =
      ({ ptr := some 2, ec := errc.invalid_argument }, float_value.of_bits 0) :=
  from_chars_whitespace_only binary32 (constant_collaborators pns_invalid am_one am_one)
    (memory_of [' ', '\t']) 0 2 (float_value.of_bits 0) (by decide) (by decide)



/-- C6: whenever `from_chars` or `parse_infnan` returns `invalid_argument`, the
output value is the one that was in the slot before the call; a call that changes
the value returns `ok`. -/
theorem invalid_argument_leaves_value (fmt : binary_format) (ext : collaborators)
    (mem : Nat → Char) (first last : Nat) (value : float_value) :
    ((from_chars fmt ext mem first last value).1.ec = errc.invalid_argument →
      (from_chars fmt ext mem first last value).2 = value) ∧
    ((parse_infnan mem first last value).1.ec = errc.invalid_argument →
      (parse_infnan mem first last value).2 = value) ∧
    ((from_chars fmt ext mem first last value).2 ≠ value →
      (from_chars fmt ext mem first last value).1.ec = errc.ok) ∧
    ((parse_infnan mem first last value).2 ≠ value →
      (parse_infnan mem first last value).1.ec = errc.ok) := by
  have hp : ∀ (f : Nat), (parse_infnan mem f last value).1.ec = errc.invalid_argument →
      (parse_infnan mem f last value).2 = value := by
    intro f hec
    obtain ⟨k1, k2, k3⟩ := parse_infnan_status_value mem f last value
    by_cases hn : nan_spelling (span mem f last)
    · rw [(k1 hn).1] at hec
      exact absurd hec (by decide)
    · by_cases hi : inf_spelling (span mem f last)
      · rw [(k2 hi).1] at hec
        exact absurd hec (by decide)
      · exact (k3 hn hi).2
  have hf : (from_chars fmt ext mem first last value).1.ec = errc.invalid_argument →
      (from_chars fmt ext mem first last value).2 = value := by
    by_cases hs : skip_space mem last (last - first) first = last
    · rw [from_chars_empty fmt ext mem first last value hs]
      intro _; rfl
    · cases hv : (ext.parse_number_string mem
          (skip_space mem last (last - first) first) last).valid
      · rw [from_chars_invalid fmt ext mem first last value hs hv]
        exact hp _
      · rw [from_chars_valid fmt ext mem first last value hs hv]
        intro hec
        simp at hec
  have hok : ∀ e : errc, e ≠ errc.invalid_argument → e = errc.ok := by
    intro e he
    cases e
    · rfl
    · exact absurd rfl he
  exact ⟨hf, hp first, fun hne => hok _ (fun hec => hne (hf hec)),
    fun hne => hok _ (fun hec => hne (hp first hec))⟩

/-- C6, at the span `abc` with an infinity in the slot before the call. -/
theorem invalid_argument_leaves_value_witness :
    (from_chars binary32 (constant_collaborators pns_invalid am_one am_one)
      (memory_of ['a', 'b', 'c']) 0 3 float_value.infinity).1.ec = errc.invalid_argument ∧
    (from_chars binary32 (constant_collaborators pns_invalid am_one am_one)
      (memory_of ['a', 'b', 'c']) 0 3 float_value.infinity).2 = float_value.infinity :=
  ⟨by decide,
    (invalid_argument_leaves_value binary32 (constant_collaborators pns_invalid am_one am_one)
      (memory_of ['a', 'b', 'c']) 0 3 float_value.infinity).1 (by decide)⟩

/-- C7: two memories that hold the same 8 characters `-infinit` in the span
`[0, 8)` and differ only at address 8, the address `last`, make `parse_infnan`
return different results: the signed `infinity` comparison reads the character
at offset 8. -/
theorem parse_infnan_reads_at_last :
    span (memory_of ['-', 'i', 'n', 'f', 'i', 'n', 'i', 't', 'y']) 0 8 =
      span (memory_of ['-', 'i', 'n', 'f', 'i', 'n', 'i', 't', 'x']) 0 8 ∧
    fastfloat_strncasecmp (memory_of ['-', 'i', 'n', 'f', 'i', 'n', 'i', 't', 'y']) (0 + 1)
      ['i', 'n', 'f', 'i', 'n', 'i', 't', 'y'] 8 ≠
    fastfloat_strncasecmp (memory_of ['-', 'i', 'n', 'f', 'i', 'n', 'i', 't', 'x']) (0 + 1)
      ['i', 'n', 'f', 'i', 'n', 'i', 't', 'y'] 8 ∧
    parse_infnan (memory_of ['-', 'i', 'n', 'f', 'i', 'n', 'i', 't', 'y']) 0 8
      (float_value.of_bits 0) ≠
    parse_infnan (memory_of ['-', 'i', 'n', 'f', 'i', 'n', 'i', 't', 'x']) 0 8
      (float_value.of_bits 0) := by
  decide

/-- C8: on the span `[0, 8)` of a memory that holds `-infinity`, `parse_infnan`
returns `ok` with the pointer at address 9, past `last = 8`. -/
theorem parse_infnan_pointer_past_last :
    (parse_infnan (memory_of ['-', 'i', 'n', 'f', 'i', 'n', 'i', 't', 'y']) 0 8
      (float_value.of_bits 0)).1.ec = errc.ok ∧
    (parse_infnan (memory_of ['-', 'i', 'n', 'f', 'i', 'n', 'i', 't', 'y']) 0 8
      (float_value.of_bits 0)).1.ptr = some 9 ∧
    ¬ (9 ≤ 8) ∧ (span (memory_of ['-', 'i', 'n', 'f', 'i', 'n', 'i', 't', 'y']) 0 8).length = 8 := by
  decide

/-- C9: for a literal the scanner reports valid, found at the position `p` reached
by skipping the leading whitespace, the value `from_chars` writes is assembled from
`parse_long_mantissa` applied to `[p, last)` when `too_many_digits` is set, and from
`compute_float` applied to the scanned exponent and mantissa when it is not. -/
theorem from_chars_converter_choice (fmt : binary_format) (ext : collaborators)
    (mem : Nat → Char) (first last : Nat) (value : float_value)
    (p : Nat) (pns : parsed_number_string)
    (hp : p = skip_space mem last (last - first) first) (hne : p ≠ last)
    (hpns : pns = ext.parse_number_string mem p last) (hv : pns.valid = true) :
    (pns.too_many_digits = true →
      (from_chars fmt ext mem first last value).2 =
        memcpy_word fmt (assemble_word fmt (ext.parse_long_mantissa fmt mem p last)
          pns.negative)) ∧
    (pns.too_many_digits = false →
      (from_chars fmt ext mem first last value).2 =
        memcpy_word fmt (assemble_word fmt (ext.compute_float fmt pns.exponent pns.mantissa)
          pns.negative)) := by
  subst hp hpns
  rw [from_chars_valid fmt ext mem first last value hne hv]
  constructor
  · intro ht
    simp [ht]
  · intro ht
    simp [ht]

/-- C9, at the literal `1`, whose scan has no truncated digits. -/
theorem from_chars_converter_choice_witness :
    pns_one.too_many_digits = false ∧
    (from_chars binary32 (constant_collaborators pns_one am_one am_sentinel)
      (memory_of ['1']) 0 1 float_value.quiet_NaN).2 =
      memcpy_word binary32 (assemble_word binary32
        ((constant_collaborators pns_one am_one am_sentinel).compute_float binary32
          pns_one.exponent pns_one.mantissa) pns_one.negative) :=
  ⟨rfl,
    (from_chars_converter_choice binary32 (constant_collaborators pns_one am_one am_sentinel)
      (memory_of ['1']) 0 1 float_value.quiet_NaN 0 pns_one (by decide) (by decide) rfl
      rfl).2 rfl⟩

/-! ## The assembled word -/

theorem uint64_t_of_nonneg (x : Int) (h0 : 0 ≤ x) (h1 : x < 2 ^ 64) :
    uint64_t x = x.toNat := by
  unfold uint64_t
  rw [Int.emod_eq_of_lt h0 h1]

/-- For a format whose sign bit is inside the 64-bit word and above the explicit
mantissa bits, and an adjusted mantissa whose fields fit theirs, the word is the
sum of the three fields, each at its position. -/
theorem assemble_word_eq (fmt : binary_format) (am : adjusted_mantissa) (negative : Bool)
    (hms : fmt.mantissa_explicit_bits ≤ fmt.sign_index) (hs : fmt.sign_index < 64)
    (hm : am.mantissa < 2 ^ fmt.mantissa_explicit_bits)
    (hp0 : 0 ≤ am.power2)
    (hp1 : am.power2 < 2 ^ (fmt.sign_index - fmt.mantissa_explicit_bits)) :
    am.power2.toNat < 2 ^ (fmt.sign_index - fmt.mantissa_explicit_bits) ∧
    am.mantissa + am.power2.toNat * 2 ^ fmt.mantissa_explicit_bits < 2 ^ fmt.sign_index ∧
    assemble_word fmt am negative =
      am.mantissa + am.power2.toNat * 2 ^ fmt.mantissa_explicit_bits +
        (if negative = true then 2 ^ fmt.sign_index else 0) := by
  obtain ⟨a, q⟩ := am
  simp only at hm hp0 hp1 ⊢
  generalize hmm : fmt.mantissa_explicit_bits = m at *
  generalize hss : fmt.sign_index = s at *
  have hpq : ((q.toNat : Nat) : Int) = q := Int.toNat_of_nonneg hp0
  have hp : q.toNat < 2 ^ (s - m) := by
    have : ((q.toNat : Nat) : Int) < ((2 ^ (s - m) : Nat) : Int) := by
      rw [hpq]; push_cast; exact hp1
    exact_mod_cast this
  have hpow : 2 ^ s = 2 ^ m * 2 ^ (s - m) := by
    rw [← Nat.pow_add]; congr 1; omega
  have h64 : (2 : Nat) ^ s < 2 ^ 64 := Nat.pow_lt_pow_right (by decide) hs
  have hm64 : (2 : Nat) ^ m ≤ 2 ^ s := Nat.pow_le_pow_right (by decide) hms
  have hsm64 : (2 : Nat) ^ (s - m) ≤ 2 ^ s := Nat.pow_le_pow_right (by decide) (by omega)
  have hx : a + q.toNat * 2 ^ m < 2 ^ s := by
    have h1 : q.toNat + 1 ≤ 2 ^ (s - m) := hp
    have h2 : (q.toNat + 1) * 2 ^ m ≤ 2 ^ (s - m) * 2 ^ m := Nat.mul_le_mul_right _ h1
    rw [hpow, Nat.mul_comm (2 ^ m)]
    have h3 : (q.toNat + 1) * 2 ^ m = q.toNat * 2 ^ m + 2 ^ m := by ring
    omega
  have hq64 : q < 2 ^ 64 := by
    have : ((q.toNat : Nat) : Int) < ((2 ^ 64 : Nat) : Int) := by
      have : q.toNat < 2 ^ 64 := by omega
      exact_mod_cast this
    rw [hpq] at this
    exact_mod_cast this
  refine ⟨hp, hx, ?_⟩
  unfold assemble_word
  simp only [hmm, hss]
  rw [uint64_t_of_nonneg q hp0 hq64, uint64_t_of_nonneg 1 (by decide) (by decide)]
  have e1 : a % 2 ^ 64 = a := Nat.mod_eq_of_lt (by omega)
  have e2 : (q.toNat <<< m) % 2 ^ 64 = 2 ^ m * q.toNat := by
    rw [Nat.shiftLeft_eq, Nat.mul_comm]
    exact Nat.mod_eq_of_lt (by rw [Nat.mul_comm]; omega)
  have e3 : ((1 : Int).toNat <<< s) % 2 ^ 64 = 2 ^ s * 1 := by
    rw [Nat.shiftLeft_eq]
    simp only [Int.toNat_one, Nat.one_mul, Nat.mul_one]
    exact Nat.mod_eq_of_lt h64
  rw [e1, e2, e3]
  have e4 : a ||| 2 ^ m * q.toNat = a + q.toNat * 2 ^ m := by
    rw [Nat.lor_comm, ← Nat.mul_add_lt_is_or hm, Nat.mul_comm, Nat.add_comm]
  rw [e4]
  cases negative
  · simp
  · simp only [if_true]
    rw [Nat.lor_comm, ← Nat.mul_add_lt_is_or hx, Nat.mul_one, Nat.add_comm]


/-- C11, as stated, fails: for `binary32`, whose exponent bias is 127, and the
adjusted mantissa `(0, 127)`, the hypotheses hold for the exponent field value
`127 + 127 = 254`, and bits `[23, 31)` of the assembled word hold `127`, the
`power2` itself, not `power2 + 127`. -/
theorem assemble_word_bias_counterexample :
    am_one.mantissa < 2 ^ binary32.mantissa_explicit_bits ∧
    0 ≤ am_one.power2 + 127 ∧
    am_one.power2 + 127 < 2 ^ (binary32.sign_index - binary32.mantissa_explicit_bits) ∧
    ((assemble_word binary32 am_one false / 2 ^ binary32.mantissa_explicit_bits %
      2 ^ (binary32.sign_index - binary32.mantissa_explicit_bits) : Nat) : Int) =
        am_one.power2 ∧
    ((assemble_word binary32 am_one false / 2 ^ binary32.mantissa_explicit_bits %
      2 ^ (binary32.sign_index - binary32.mantissa_explicit_bits) : Nat) : Int) ≠
        am_one.power2 + 127 := by
  decide

/-- C11, amended: for a format with `mantissa_explicit_bits ≤ sign_index < 64`, an
adjusted mantissa with `mantissa < 2^mantissa_explicit_bits` and
`0 ≤ power2 < 2^(sign_index - mantissa_explicit_bits)`, and any sign flag, the word
`from_chars` assembles has bit `sign_index` set iff `negative`, bits
`[mantissa_explicit_bits, sign_index)` equal to `power2` as the converter returned
it (no bias is added), bits `[0, mantissa_explicit_bits)` equal to the mantissa,
and every bit above `sign_index` zero; when the sign bit is inside `T`, `memcpy`
copies the word unchanged. -/
theorem assemble_word_fields (fmt : binary_format) (am : adjusted_mantissa) (negative : Bool)
    (hms : fmt.mantissa_explicit_bits ≤ fmt.sign_index) (hs : fmt.sign_index < 64)
    (hm : am.mantissa < 2 ^ fmt.mantissa_explicit_bits)
    (hp0 : 0 ≤ am.power2)
    (hp1 : am.power2 < 2 ^ (fmt.sign_index - fmt.mantissa_explicit_bits)) :
    (assemble_word fmt am negative).testBit fmt.sign_index = negative ∧
    ((assemble_word fmt am negative / 2 ^ fmt.mantissa_explicit_bits %
      2 ^ (fmt.sign_index - fmt.mantissa_explicit_bits) : Nat) : Int) = am.power2 ∧
    assemble_word fmt am negative % 2 ^ fmt.mantissa_explicit_bits = am.mantissa ∧
    (∀ i, fmt.sign_index < i → (assemble_word fmt am negative).testBit i = false) ∧
    (fmt.sign_index < 8 * fmt.sizeof_T →
      memcpy_word fmt (assemble_word fmt am negative) =
        float_value.of_bits (assemble_word fmt am negative)) := by
  obtain ⟨hp, hx, hw⟩ := assemble_word_eq fmt am negative hms hs hm hp0 hp1
  have hpq : ((am.power2.toNat : Nat) : Int) = am.power2 := Int.toNat_of_nonneg hp0
  generalize assemble_word fmt am negative = w at *
  generalize fmt.mantissa_explicit_bits = m at *
  generalize fmt.sign_index = s at *
  generalize am.power2.toNat = p at *
  generalize am.mantissa = a at *
  have hpow : 2 ^ s = 2 ^ (s - m) * 2 ^ m := by
    rw [← Nat.pow_add]; congr 1; omega
  have hpos : 0 < 2 ^ m := Nat.two_pow_pos m
  have hlt : w < 2 ^ (s + 1) := by
    rw [hw, Nat.pow_succ]
    split_ifs <;> omega
  have hdiv : w / 2 ^ m = p + (if negative = true then 2 ^ (s - m) else 0) := by
    rw [hw]
    cases negative
    · simp only [Bool.false_eq_true, if_false, Nat.add_zero]
      rw [Nat.add_mul_div_right _ _ hpos, Nat.div_eq_of_lt hm, Nat.zero_add]
    · simp only [if_true]
      rw [hpow, Nat.add_assoc, ← Nat.add_mul, Nat.add_mul_div_right _ _ hpos,
        Nat.div_eq_of_lt hm, Nat.zero_add]
  refine ⟨?_, ?_, ?_, ?_, ?_⟩
  · rw [hw]
    cases negative
    · simp only [Bool.false_eq_true, if_false, Nat.add_zero]
      exact Nat.testBit_lt_two_pow hx
    · simp only [if_true]
      rw [Nat.add_comm, Nat.testBit_two_pow_add_eq, Nat.testBit_lt_two_pow hx]
      rfl
  · rw [hdiv, ← hpq]
    congr 1
    cases negative
    · simp only [Bool.false_eq_true, if_false, Nat.add_zero]
      exact Nat.mod_eq_of_lt hp
    · simp only [if_true]
      rw [Nat.add_mod_right]
      exact Nat.mod_eq_of_lt hp
  · rw [hw]
    cases negative
    · simp only [Bool.false_eq_true, if_false, Nat.add_zero]
      rw [Nat.add_mul_mod_self_right]
      exact Nat.mod_eq_of_lt hm
    · simp only [if_true]
      rw [hpow, Nat.add_assoc, ← Nat.add_mul, Nat.add_mul_mod_self_right]
      exact Nat.mod_eq_of_lt hm
  · intro i hi
    apply Nat.testBit_lt_two_pow
    exact Nat.lt_of_lt_of_le hlt (Nat.pow_le_pow_right (by decide) hi)
  · intro hsz
    unfold memcpy_word
    congr 1
    apply Nat.mod_eq_of_lt
    exact Nat.lt_of_lt_of_le hlt (Nat.pow_le_pow_right (by decide) hsz)

/-- C11 amended, at `binary32`, the adjusted mantissa `(0, 127)` and a negative
sign: the word is `0xBF800000`. -/
theorem assemble_word_fields_witness :
    (assemble_word binary32 am_one true).testBit binary32.sign_index = true ∧
    ((assemble_word binary32 am_one true / 2 ^ binary32.mantissa_explicit_bits %
      2 ^ (binary32.sign_index - binary32.mantissa_explicit_bits) : Nat) : Int) =
        am_one.power2 ∧
    assemble_word binary32 am_one true % 2 ^ binary32.mantissa_explicit_bits =
      am_one.mantissa ∧
    (∀ i, binary32.sign_index < i → (assemble_word binary32 am_one true).testBit i = false) ∧
    (binary32.sign_index < 8 * binary32.sizeof_T →
      memcpy_word binary32 (assemble_word binary32 am_one true) =
        float_value.of_bits (assemble_word binary32 am_one true)) :=
  assemble_word_fields binary32 am_one true (by decide) (by decide) (by decide) (by decide)
    (by decide)


/-- C12: when `parse_infnan` succeeds, the value it writes is a negated one exactly
when the first character of the span is `-`: a `nan` spelling gives `-quiet_NaN()`
after `-` and `quiet_NaN()` otherwise, an `inf` spelling gives `-infinity()` after
`-` and `infinity()` otherwise. -/
theorem parse_infnan_sign (mem : Nat → Char) (first last : Nat) (value : float_value)
    (hok : (parse_infnan mem first last value).1.ec = errc.ok) :
    (negated (parse_infnan mem first last value).2 = true ↔
      (span mem first last).head? = some '-') ∧
    (nan_spelling (span mem first last) →
      (parse_infnan mem first last value).2 =
        if (span mem first last).head? = some '-' then float_value.neg float_value.quiet_NaN
        else float_value.quiet_NaN) ∧
    (inf_spelling (span mem first last) →
      (parse_infnan mem first last value).2 =
        if (span mem first last).head? = some '-' then float_value.neg float_value.infinity
        else float_value.infinity) := by
  have e1 : begins_with_ci (span mem first last) ['n', 'a', 'n'] →
      ¬ begins_with_ci (span mem first last) ['i', 'n', 'f'] :=
    begins_with_ci_excl 0 (by decide) (by decide) (by decide)
  have e2 : begins_with_ci (span mem first last) ['n', 'a', 'n'] →
      ¬ begins_with_ci (span mem first last) ['+', 'i', 'n', 'f'] :=
    begins_with_ci_excl 0 (by decide) (by decide) (by decide)
  have e3 : begins_with_ci (span mem first last) ['n', 'a', 'n'] →
      ¬ begins_with_ci (span mem first last) ['-', 'i', 'n', 'f'] :=
    begins_with_ci_excl 0 (by decide) (by decide) (by decide)
  have e4 : begins_with_ci (span mem first last) ['i', 'n', 'f'] →
      ¬ begins_with_ci (span mem first last) ['+', 'n', 'a', 'n'] :=
    begins_with_ci_excl 0 (by decide) (by decide) (by decide)
  have e5 : begins_with_ci (span mem first last) ['i', 'n', 'f'] →
      ¬ begins_with_ci (span mem first last) ['-', 'n', 'a', 'n'] :=
    begins_with_ci_excl 0 (by decide) (by decide) (by decide)
  have e6 : begins_with_ci (span mem first last) ['+', 'n', 'a', 'n'] →
      ¬ begins_with_ci (span mem first last) ['+', 'i', 'n', 'f'] :=
    begins_with_ci_excl 1 (by decide) (by decide) (by decide)
  have e7 : begins_with_ci (span mem first last) ['+', 'n', 'a', 'n'] →
      ¬ begins_with_ci (span mem first last) ['-', 'i', 'n', 'f'] :=
    begins_with_ci_excl 0 (by decide) (by decide) (by decide)
  have e8 : begins_with_ci (span mem first last) ['-', 'n', 'a', 'n'] →
      ¬ begins_with_ci (span mem first last) ['+', 'i', 'n', 'f'] :=
    begins_with_ci_excl 0 (by decide) (by decide) (by decide)
  have e9 : begins_with_ci (span mem first last) ['-', 'n', 'a', 'n'] →
      ¬ begins_with_ci (span mem first last) ['-', 'i', 'n', 'f'] :=
    begins_with_ci_excl 1 (by decide) (by decide) (by decide)
  have hA : begins_with_ci (span mem first last) ['n', 'a', 'n'] → ¬ mem first = '-' := by
    intro h hm
    have := (begins_with_ci_first mem first last _ _ h).2
    rw [hm] at this
    exact absurd this (by decide)
  have hB : begins_with_ci (span mem first last) ['i', 'n', 'f'] → ¬ mem first = '-' := by
    intro h hm
    have := (begins_with_ci_first mem first last _ _ h).2
    rw [hm] at this
    exact absurd this (by decide)
  have hne : first < last := by
    by_contra hlt
    have hshort : ∀ lit : List Char, 0 < lit.length →
        ¬ begins_with_ci (span mem first last) lit := by
      intro lit hl hb
      have := begins_with_ci_length hb
      rw [span_length] at this
      omega
    rw [parse_infnan_eq] at hok
    rw [if_neg (hshort _ (by simp)), if_neg (hshort _ (by simp)),
      if_neg (by intro h; rcases h with h | h <;> exact hshort _ (by simp) h),
      if_neg (by intro h; rcases h with h | h <;> exact hshort _ (by simp) h)] at hok
    simp at hok
  rw [span_head mem first last hne]
  simp only [Option.some.injEq]
  unfold nan_spelling inf_spelling signed_spelling
  rw [parse_infnan_eq] at hok ⊢
  split_ifs at hok ⊢ with cA cB cCD cM cEF cM2
  all_goals generalize begins_with_ci (span mem first last) ['n', 'a', 'n'] = A at *
  all_goals generalize begins_with_ci (span mem first last) ['i', 'n', 'f'] = B at *
  all_goals generalize begins_with_ci (span mem first last) ['+', 'n', 'a', 'n'] = C at *
  all_goals generalize begins_with_ci (span mem first last) ['-', 'n', 'a', 'n'] = D at *
  all_goals generalize begins_with_ci (span mem first last) ['+', 'i', 'n', 'f'] = E at *
  all_goals generalize begins_with_ci (span mem first last) ['-', 'i', 'n', 'f'] = F at *
  all_goals generalize (mem first = '-') = M at *
  all_goals simp only [negated]
  all_goals (simp_all <;> tauto)

/-- C12, at the span `-NaN`. -/
theorem parse_infnan_sign_witness :
    (negated (parse_infnan (memory_of ['-', 'N', 'a', 'N']) 0 4 float_value.infinity).2 = true ↔
      (span (memory_of ['-', 'N', 'a', 'N']) 0 4).head? = some '-') ∧
    (nan_spelling (span (memory_of ['-', 'N', 'a', 'N']) 0 4) →
      (parse_infnan (memory_of ['-', 'N', 'a', 'N']) 0 4 float_value.infinity).2 =
        if (span (memory_of ['-', 'N', 'a', 'N']) 0 4).head? = some '-'
        then float_value.neg float_value.quiet_NaN
        else float_value.quiet_NaN) ∧
    (inf_spelling (span (memory_of ['-', 'N', 'a', 'N']) 0 4) →
      (parse_infnan (memory_of ['-', 'N', 'a', 'N']) 0 4 float_value.infinity).2 =
        if (span (memory_of ['-', 'N', 'a', 'N']) 0 4).head? = some '-'
        then float_value.neg float_value.infinity
        else float_value.infinity) :=
  parse_infnan_sign (memory_of ['-', 'N', 'a', 'N']) 0 4 float_value.infinity (by decide)

/-- C16: for two valid scans without truncated digits that have the same exponent
and mantissa and differ in the `negative` flag, `from_chars` assembles both values
from the same adjusted mantissa `compute_float(exponent, mantissa)`; when that
adjusted mantissa has `mantissa < 2^mantissa_explicit_bits` and
`0 ≤ power2 < 2^(sign_index - mantissa_explicit_bits)`, in a format with
`mantissa_explicit_bits ≤ sign_index < 64`, the two words differ in exactly bit
`sign_index`, set for the negative scan and clear for the other. -/
theorem from_chars_sign_symmetry (fmt : binary_format) (ext : collaborators)
    (mem1 mem2 : Nat → Char) (first1 last1 first2 last2 : Nat) (value1 value2 : float_value)
    (p1 p2 : Nat) (pns1 pns2 : parsed_number_string)
    (hp1 : p1 = skip_space mem1 last1 (last1 - first1) first1) (hne1 : p1 ≠ last1)
    (hpns1 : pns1 = ext.parse_number_string mem1 p1 last1)
    (hp2 : p2 = skip_space mem2 last2 (last2 - first2) first2) (hne2 : p2 ≠ last2)
    (hpns2 : pns2 = ext.parse_number_string mem2 p2 last2)
    (hv1 : pns1.valid = true) (hv2 : pns2.valid = true)
    (ht1 : pns1.too_many_digits = false) (ht2 : pns2.too_many_digits = false)
    (he : pns1.exponent = pns2.exponent) (hm : pns1.mantissa = pns2.mantissa)
    (hn1 : pns1.negative = true) (hn2 : pns2.negative = false)
    (hms : fmt.mantissa_explicit_bits ≤ fmt.sign_index) (hs : fmt.sign_index < 64)
    (hmant : (ext.compute_float fmt pns1.exponent pns1.mantissa).mantissa <
      2 ^ fmt.mantissa_explicit_bits)
    (hpow0 : 0 ≤ (ext.compute_float fmt pns1.exponent pns1.mantissa).power2)
    (hpow1 : (ext.compute_float fmt pns1.exponent pns1.mantissa).power2 <
      2 ^ (fmt.sign_index - fmt.mantissa_explicit_bits)) :
    (from_chars fmt ext mem1 first1 last1 value1).2 =
      memcpy_word fmt (assemble_word fmt
        (ext.compute_float fmt pns1.exponent pns1.mantissa) true) ∧
    (from_chars fmt ext mem2 first2 last2 value2).2 =
      memcpy_word fmt (assemble_word fmt
        (ext.compute_float fmt pns1.exponent pns1.mantissa) false) ∧
    (assemble_word fmt (ext.compute_float fmt pns1.exponent pns1.mantissa) true).testBit
      fmt.sign_index = true ∧
    (assemble_word fmt (ext.compute_float fmt pns1.exponent pns1.mantissa) false).testBit
      fmt.sign_index = false ∧
    (∀ i, i ≠ fmt.sign_index →
      (assemble_word fmt (ext.compute_float fmt pns1.exponent pns1.mantissa) true).testBit i =
      (assemble_word fmt (ext.compute_float fmt pns1.exponent pns1.mantissa) false).testBit
        i) := by
  have hf1 : (from_chars fmt ext mem1 first1 last1 value1).2 =
      memcpy_word fmt (assemble_word fmt
        (ext.compute_float fmt pns1.exponent pns1.mantissa) true) := by
    subst hp1 hpns1
    rw [from_chars_valid fmt ext mem1 first1 last1 value1 hne1 hv1]
    simp [ht1, hn1]
  have hf2 : (from_chars fmt ext mem2 first2 last2 value2).2 =
      memcpy_word fmt (assemble_word fmt
        (ext.compute_float fmt pns1.exponent pns1.mantissa) false) := by
    rw [he, hm]
    subst hp2 hpns2
    rw [from_chars_valid fmt ext mem2 first2 last2 value2 hne2 hv2]
    simp [ht2, hn2]
  obtain ⟨_, hx, hw1⟩ := assemble_word_eq fmt
    (ext.compute_float fmt pns1.exponent pns1.mantissa) true hms hs hmant hpow0 hpow1
  obtain ⟨_, _, hw2⟩ := assemble_word_eq fmt
    (ext.compute_float fmt pns1.exponent pns1.mantissa) false hms hs hmant hpow0 hpow1
  simp only [if_true] at hw1
  simp only [Bool.false_eq_true, if_false, Nat.add_zero] at hw2
  refine ⟨hf1, hf2, ?_, ?_, ?_⟩
  · rw [hw1, Nat.add_comm, Nat.testBit_two_pow_add_eq, Nat.testBit_lt_two_pow hx]
    rfl
  · rw [hw2]
    exact Nat.testBit_lt_two_pow hx
  · intro i hi
    rw [hw1, hw2]
    rcases Nat.lt_or_gt_of_ne hi with hlt | hgt
    · rw [Nat.add_comm, Nat.testBit_two_pow_add_gt hlt]
    · have hle : 2 ^ (fmt.sign_index + 1) ≤ 2 ^ i := Nat.pow_le_pow_right (by decide) hgt
      rw [Nat.testBit_lt_two_pow, Nat.testBit_lt_two_pow]
      · omega
      · rw [Nat.pow_succ] at hle
        omega

/-- C16, at the literals `-1` and `1`, both converted to the adjusted mantissa
`(0, 127)`: the words are `0xBF800000` and `0x3F800000`. -/
theorem from_chars_sign_symmetry_witness :
    (from_chars binary32 (sign_reading_collaborators am_one am_one)
      (memory_of ['-', '1']) 0 2 float_value.quiet_NaN).2 =
      memcpy_word binary32 (assemble_word binary32
        ((sign_reading_collaborators am_one am_one).compute_float binary32 0 1) true) ∧
    (from_chars binary32 (sign_reading_collaborators am_one am_one)
      (memory_of ['1']) 0 1 float_value.quiet_NaN).2 =
      memcpy_word binary32 (assemble_word binary32
        ((sign_reading_collaborators am_one am_one).compute_float binary32 0 1) false) ∧
    (assemble_word binary32
      ((sign_reading_collaborators am_one am_one).compute_float binary32 0 1) true).testBit
      binary32.sign_index = true ∧
    (assemble_word binary32
      ((sign_reading_collaborators am_one am_one).compute_float binary32 0 1) false).testBit
      binary32.sign_index = false ∧
    (∀ i, i ≠ binary32.sign_index →
      (assemble_word binary32
        ((sign_reading_collaborators am_one am_one).compute_float binary32 0 1) true).testBit i =
      (assemble_word binary32
        ((sign_reading_collaborators am_one am_one).compute_float binary32 0 1) false).testBit
        i) :=
  from_chars_sign_symmetry binary32 (sign_reading_collaborators am_one am_one)
    (memory_of ['-', '1']) (memory_of ['1']) 0 2 0 1 float_value.quiet_NaN
    float_value.quiet_NaN 0 0
    ((sign_reading_collaborators am_one am_one).parse_number_string (memory_of ['-', '1']) 0 2)
    ((sign_reading_collaborators am_one am_one).parse_number_string (memory_of ['1']) 0 1)
    (by decide) (by decide) rfl (by decide) (by decide) rfl rfl rfl rfl rfl rfl rfl
    (by decide) rfl (by decide) (by decide) (by decide) (by decide) (by decide)


/-- A literal that a span begins with is one every longer span from the same
address begins with. -/
theorem begins_with_ci_span_mono (mem : Nat → Char) (first last last2 : Nat)
    (lit : List Char) (hl : last ≤ last2)
    (h : begins_with_ci (span mem first last) lit) :
    begins_with_ci (span mem first last2) lit := by
  have hlen := begins_with_ci_length h
  rw [span_length] at hlen
  have h1 := (begins_with_ci_span mem first last lit hlen).mpr h
  exact (begins_with_ci_span mem first last2 lit (by omega)).mp h1

/-- The part of the extension property that holds on the code: when `parse_infnan`
succeeds on `[first, last)`, it succeeds on every longer span `[first, last2)` of
the same memory, writes the same value, and returns a pointer at least as far. -/
theorem parse_infnan_extend (mem : Nat → Char) (first last last2 : Nat)
    (value : float_value) (hl : last ≤ last2)
    (hok : (parse_infnan mem first last value).1.ec = errc.ok) :
    (parse_infnan mem first last2 value).1.ec = errc.ok ∧
    (parse_infnan mem first last2 value).2 = (parse_infnan mem first last value).2 ∧
    ∃ q q2, (parse_infnan mem first last value).1.ptr = some q ∧
      (parse_infnan mem first last2 value).1.ptr = some q2 ∧ q ≤ q2 := by
  have mono := fun lit => begins_with_ci_span_mono mem first last last2 lit hl
  have e1 : begins_with_ci (span mem first last2) ['i', 'n', 'f'] →
      ¬ begins_with_ci (span mem first last2) ['n', 'a', 'n'] :=
    begins_with_ci_excl 0 (by decide) (by decide) (by decide)
  have e2 : begins_with_ci (span mem first last2) ['+', 'n', 'a', 'n'] →
      ¬ begins_with_ci (span mem first last2) ['n', 'a', 'n'] :=
    begins_with_ci_excl 0 (by decide) (by decide) (by decide)
  have e3 : begins_with_ci (span mem first last2) ['-', 'n', 'a', 'n'] →
      ¬ begins_with_ci (span mem first last2) ['n', 'a', 'n'] :=
    begins_with_ci_excl 0 (by decide) (by decide) (by decide)
  have e4 : begins_with_ci (span mem first last2) ['+', 'n', 'a', 'n'] →
      ¬ begins_with_ci (span mem first last2) ['i', 'n', 'f'] :=
    begins_with_ci_excl 0 (by decide) (by decide) (by decide)
  have e5 : begins_with_ci (span mem first last2) ['-', 'n', 'a', 'n'] →
      ¬ begins_with_ci (span mem first last2) ['i', 'n', 'f'] :=
    begins_with_ci_excl 0 (by decide) (by decide) (by decide)
  have e6 : begins_with_ci (span mem first last2) ['+', 'i', 'n', 'f'] →
      ¬ begins_with_ci (span mem first last2) ['n', 'a', 'n'] :=
    begins_with_ci_excl 0 (by decide) (by decide) (by decide)
  have e7 : begins_with_ci (span mem first last2) ['-', 'i', 'n', 'f'] →
      ¬ begins_with_ci (span mem first last2) ['n', 'a', 'n'] :=
    begins_with_ci_excl 0 (by decide) (by decide) (by decide)
  have e8 : begins_with_ci (span mem first last2) ['+', 'i', 'n', 'f'] →
      ¬ begins_with_ci (span mem first last2) ['i', 'n', 'f'] :=
    begins_with_ci_excl 0 (by decide) (by decide) (by decide)
  have e9 : begins_with_ci (span mem first last2) ['-', 'i', 'n', 'f'] →
      ¬ begins_with_ci (span mem first last2) ['i', 'n', 'f'] :=
    begins_with_ci_excl 0 (by decide) (by decide) (by decide)
  have e10 : begins_with_ci (span mem first last2) ['+', 'i', 'n', 'f'] →
      ¬ begins_with_ci (span mem first last2) ['+', 'n', 'a', 'n'] :=
    begins_with_ci_excl 1 (by decide) (by decide) (by decide)
  have e11 : begins_with_ci (span mem first last2) ['+', 'i', 'n', 'f'] →
      ¬ begins_with_ci (span mem first last2) ['-', 'n', 'a', 'n'] :=
    begins_with_ci_excl 0 (by decide) (by decide) (by decide)
  have e12 : begins_with_ci (span mem first last2) ['-', 'i', 'n', 'f'] →
      ¬ begins_with_ci (span mem first last2) ['+', 'n', 'a', 'n'] :=
    begins_with_ci_excl 0 (by decide) (by decide) (by decide)
  have e13 : begins_with_ci (span mem first last2) ['-', 'i', 'n', 'f'] →
      ¬ begins_with_ci (span mem first last2) ['-', 'n', 'a', 'n'] :=
    begins_with_ci_excl 1 (by decide) (by decide) (by decide)
  rw [parse_infnan_eq mem first last value] at hok ⊢
  rw [parse_infnan_eq mem first last2 value]
  by_cases cA : begins_with_ci (span mem first last) ['n', 'a', 'n']
  · rw [if_pos cA, if_pos (mono _ cA)]
    exact ⟨rfl, rfl, first + 3, first + 3, rfl, rfl, Nat.le_refl _⟩
  rw [if_neg cA] at hok ⊢
  by_cases cB : begins_with_ci (span mem first last) ['i', 'n', 'f']
  · rw [if_pos cB, if_neg (e1 (mono _ cB)), if_pos (mono _ cB)]
    refine ⟨rfl, rfl, _, _, rfl, rfl, ?_⟩
    by_cases c8 : begins_with_ci (span mem first last) ['i', 'n', 'f', 'i', 'n', 'i', 't', 'y']
    · rw [if_pos c8, if_pos (mono _ c8)]
    · rw [if_neg c8]
      split_ifs <;> omega
  rw [if_neg cB] at hok ⊢
  by_cases cCD : begins_with_ci (span mem first last) ['+', 'n', 'a', 'n'] ∨
      begins_with_ci (span mem first last) ['-', 'n', 'a', 'n']
  · have cCD2 : begins_with_ci (span mem first last2) ['+', 'n', 'a', 'n'] ∨
        begins_with_ci (span mem first last2) ['-', 'n', 'a', 'n'] :=
      cCD.imp (mono _) (mono _)
    rw [if_pos cCD, if_neg (cCD2.elim e2 e3), if_neg (cCD2.elim e4 e5), if_pos cCD2]
    exact ⟨rfl, rfl, first + 4, first + 4, rfl, rfl, Nat.le_refl _⟩
  rw [if_neg cCD] at hok ⊢
  by_cases cEF : begins_with_ci (span mem first last) ['+', 'i', 'n', 'f'] ∨
      begins_with_ci (span mem first last) ['-', 'i', 'n', 'f']
  · have cEF2 : begins_with_ci (span mem first last2) ['+', 'i', 'n', 'f'] ∨
        begins_with_ci (span mem first last2) ['-', 'i', 'n', 'f'] :=
      cEF.imp (mono _) (mono _)
    have nCD2 : ¬ (begins_with_ci (span mem first last2) ['+', 'n', 'a', 'n'] ∨
        begins_with_ci (span mem first last2) ['-', 'n', 'a', 'n']) := by
      rintro (h | h)
      · exact cEF2.elim (fun g => e10 g h) (fun g => e12 g h)
      · exact cEF2.elim (fun g => e11 g h) (fun g => e13 g h)
    rw [if_pos cEF, if_neg (cEF2.elim e6 e7), if_neg (cEF2.elim e8 e9), if_neg nCD2,
      if_pos cEF2]
    refine ⟨rfl, rfl, _, _, rfl, rfl, ?_⟩
    by_cases c9 : last - first ≥ 8 ∧ fastfloat_strncasecmp mem (first + 1)
        ['i', 'n', 'f', 'i', 'n', 'i', 't', 'y'] 8 = 0
    · rw [if_pos c9, if_pos ⟨by omega, c9.2⟩]
    · rw [if_neg c9]
      split_ifs <;> omega
  rw [if_neg cEF] at hok
  simp at hok

/-- C17: in a memory that holds `-infinity`, the span `-inf` of 4 characters and
its extension `-infinit` of 8 characters both succeed; the count goes from 4 to 9
although the extension does not begin with `-infinity`. -/
theorem parse_infnan_extension_count :
    span (memory_of ['-', 'i', 'n', 'f', 'i', 'n', 'i', 't', 'y']) 0 8 =
      span (memory_of ['-', 'i', 'n', 'f', 'i', 'n', 'i', 't', 'y']) 0 4 ++
        ['i', 'n', 'i', 't'] ∧
    (parse_infnan (memory_of ['-', 'i', 'n', 'f', 'i', 'n', 'i', 't', 'y']) 0 4
      (float_value.of_bits 0)).1 = { ptr := some 4, ec := errc.ok } ∧
    (parse_infnan (memory_of ['-', 'i', 'n', 'f', 'i', 'n', 'i', 't', 'y']) 0 8
      (float_value.of_bits 0)).1 = { ptr := some 9, ec := errc.ok } ∧
    ¬ begins_with_ci (span (memory_of ['-', 'i', 'n', 'f', 'i', 'n', 'i', 't', 'y']) 0 8)
      ['-', 'i', 'n', 'f', 'i', 'n', 'i', 't', 'y'] ∧
    ¬ begins_with_ci (span (memory_of ['-', 'i', 'n', 'f', 'i', 'n', 'i', 't', 'y']) 0 8)
      ['i', 'n', 'f', 'i', 'n', 'i', 't', 'y'] := by
  decide

end fastfloat
